import Mathlib

set_option maxRecDepth 10000

/-!
Verification of the QA pre-release pipeline orchestration engine
(`autotest/state/pipeline_state.py`) against its natural-language
specification.  Each Python fragment relevant to a claim is shallowly
embedded as an executable Lean definition; Python `dict`s become
association lists where an insert prepends (so a lookup returns the most
recent binding, matching dict overwrite semantics), and `time.time()`
arithmetic on lock ages and sleep durations is modelled over `Int`/`ℚ`
(the constants involved — 0.5, 0.3, 1.0, 3.0 and whole seconds — are all
exactly representable, so no rounding behaviour is lost).
-/

/-- Lookup in an association list with `String` keys (Python `d.get(k)` /
`k in d`).  Returns the first binding, which is the most recent one under
the prepend-insert below. -/
def alookup : List (String × String) → String → Option String
  | [], _ => none
  | (k', v) :: rest, k => if k' = k then some v else alookup rest k

/-- Insert (Python `d[k] = v`): prepend, so `alookup` sees the newest value. -/
def ainsert (m : List (String × String)) (k v : String) : List (String × String) :=
  (k, v) :: m

/-- In-place value update for an existing key (Python `d[k] = v` when `k` is
already present and insertion order is preserved). -/
def aupdate : List (String × String) → String → String → List (String × String)
  | [], _, _ => []
  | (k', v') :: rest, k, v =>
      if k' = k then (k', v) :: rest else (k', v') :: aupdate rest k v

/-! ### Run finalization (`start_pipeline`, pipeline_state.py lines 1282-1307)

At the end of the run loop the executor computes the coarse run status from
the per-step statuses (`_current_steps.values()`) and the `aborted` flag:

    all_success = all(s == "success" for s in self._current_steps.values())
    has_failed  = any(s == "failed"  for s in self._current_steps.values())
    if all_success:  final_status = "success"
    elif aborted:    final_status = "failed"
    elif has_failed: final_status = "degraded"
    else:            final_status = "success"

and only afterwards (lines 1303-1307) marks steps still `"running"` as
`"failed"` when the run was aborted:

    if aborted:
        for k, v in self._current_steps.items():
            if v == "running":
                self._current_steps[k] = "failed"
-/

/-- `final_status` computation, lines 1288-1301. -/
def finalStatus (stepVals : List String) (aborted : Bool) : String :=
  let allSuccess := stepVals.all (fun s => s == "success")
  let hasFailed := stepVals.any (fun s => s == "failed")
  if allSuccess then "success"
  else if aborted then "failed"
  else if hasFailed then "degraded"
  else "success"

/-- Abort marking, lines 1303-1307: steps whose status is `"running"` become
`"failed"`; every other step keeps its status. -/
def markRunningFailed (steps : List (String × String)) : List (String × String) :=
  steps.map (fun p => if p.2 = "running" then (p.1, "failed") else p)

/-! ### Observer poller back-off (`start_observer_poller`, lines 602-607)

    sleep_time = 1.0 if idle_count < 3 else min(1.0 + idle_count * 0.5, 3.0)
    sleep_time += random.uniform(0, 0.3)  # jitter
-/

/-- Base sleep (before jitter) of one observer-poller iteration, line 605. -/
def sleepBase (idle : ℕ) : ℚ :=
  if idle < 3 then 1 else min (1 + (idle : ℚ) * (1 / 2)) 3

/-- Full sleep for one iteration: base plus the sampled jitter `j`, line 606
(`random.uniform(0, 0.3)` guarantees `0 ≤ j ≤ 0.3`). -/
def sleepWithJitter (idle : ℕ) (j : ℚ) : ℚ :=
  sleepBase idle + j

/-- The sleep formula the spec states: `1.0 + idle_count*0.5` capped at 3.0,
for every `idle_count`.  Modelled from the spec wording, for comparison with
`sleepBase` (the code). -/
def sleepBaseSpec (idle : ℕ) : ℚ :=
  min (1 + (idle : ℚ) * (1 / 2)) 3

/-! ### GitOps deploy-lock gate (`_run_gitops_step`, lines 2434-2458)

    existing_lock = await gh.check_deploy_lock(country)
    if existing_lock:
        lock_age = time.time() - existing_lock.get("locked_at_epoch", 0)
        lock_ttl = existing_lock.get("ttl_secs", 3600)
        if lock_age < lock_ttl:
            ... self._current_steps["gitops"] = "failed" ...
            return

The early `return` happens before any values file is read or written and
before any git add/commit/push (lines 2460 onward), so a blocked run
performs none of those actions.
-/

/-- A deploy-lock record as stored in `.deploy-locks/staging-<country>.json`. -/
structure DeployLock where
  run_id : String
  triggered_by : String
  locked_at_epoch : Int
  ttl_secs : Int
  deriving DecidableEq, Repr

/-- The gate condition of lines 2440-2442: the step fails when
`now - locked_at_epoch < ttl_secs`. -/
def lockBlocksGitops (now : Int) (l : DeployLock) : Bool :=
  now - l.locked_at_epoch < l.ttl_secs

/-- Lock expiry as the spec words it: a lock is expired exactly when
`now - locked_at_epoch > ttl_secs`.  Modelled from the spec, for comparison
with `lockBlocksGitops` (the code's gate). -/
def lockExpiredSpec (now : Int) (l : DeployLock) : Bool :=
  now - l.locked_at_epoch > l.ttl_secs

/-- What the gitops step has done when the lock gate trips. -/
structure GitopsEarlyExit where
  status : String
  updated_files : Nat
  committed : Bool
  pushed : Bool
  deriving DecidableEq, Repr

/-- Lock gate at gitops-step entry: `some` = the step returned immediately
with the given outcome (lines 2446-2458); `none` = the step proceeds to the
per-service updates. -/
def gitopsLockGate (now : Int) (lock : Option DeployLock) : Option GitopsEarlyExit :=
  match lock with
  | none => none
  | some l =>
      if lockBlocksGitops now l then some ⟨"failed", 0, false, false⟩ else none

/-! ### Abort-flag lifecycle (`_SHARED_ABORT`)

All program points that touch the module-level abort flag:

  * `abort_pipeline` (line 833): `_set_shared_abort(True)` — any session.
  * `start_pipeline` (line 952): `_set_shared_abort(False)` — "Clear any
    stale abort signal from previous runs", at pipeline start.
  * `start_pipeline` (line 1280): `_set_shared_abort(False)` — "Clear abort
    flag before finalizing".
  * `_read_shared_abort` (lines 289-292) — pure read, "does NOT clear it";
    called before each step (line 992), between steps (line 1265) and in
    every pause-wait poll (line 1428).
-/

/-- One event touching the shared abort flag, tagged by its call site. -/
inductive AbortEvent where
  | setAbort        -- line 833
  | startClear      -- line 952
  | finalizeClear   -- line 1280
  | readPreStep     -- line 992
  | readBetweenSteps -- line 1265
  | readPauseWait   -- line 1428
  deriving DecidableEq, Repr

/-- Effect of one event on the flag. Reads leave it unchanged. -/
def abortFlagStep (b : Bool) : AbortEvent → Bool
  | .setAbort => true
  | .startClear => false
  | .finalizeClear => false
  | .readPreStep => b
  | .readBetweenSteps => b
  | .readPauseWait => b

/-- Flag value after a sequence of events starting from `b`. -/
def runAbortFlag (b : Bool) (evs : List AbortEvent) : Bool :=
  evs.foldl abortFlagStep b

/-- An event is one of the three read sites. -/
def isAbortRead : AbortEvent → Bool
  | .readPreStep => true
  | .readBetweenSteps => true
  | .readPauseWait => true
  | _ => false

/-! ### Pause-decision dispatch (`start_pipeline` lines 1063-1262 and
`_wait_for_pause_action` lines 1417-1440)

`_wait_for_pause_action` accepts `_valid = ("retry", "proceed", "rollback",
"abort")` from any step.  The executor then dispatches:

    if action == "retry": ...            # re-run same step
    elif action == "proceed": ...        # advance
    elif action == "rollback" and step_id == "deploy": ...  # rollback flow
    elif action == "abort": aborted = True; break
    else:  # Shouldn't happen, but treat as abort
        aborted = True; break
-/

/-- Decisions `_wait_for_pause_action` returns (line 1424). -/
def VALID_PAUSE_ACTIONS : List String := ["retry", "proceed", "rollback", "abort"]

/-- Whether the pause-wait loop accepts a decision (any step, line 1424). -/
def waitAccepts (action : String) : Bool :=
  VALID_PAUSE_ACTIONS.contains action

/-- Executor behaviour after a pause decision. -/
inductive PauseOutcome where
  | retrySame      -- re-run the failing step, same index
  | advanceStep    -- force proceed, index advances
  | rollbackFlow   -- deploy-only rollback handling
  | abortRun       -- aborted = True; break (run finalizes)
  deriving DecidableEq, Repr

/-- The `if/elif/else` dispatch of lines 1063-1262. -/
def dispatchPauseAction (action step_id : String) : PauseOutcome :=
  if action = "retry" then .retrySame
  else if action = "proceed" then .advanceStep
  else if action = "rollback" ∧ step_id = "deploy" then .rollbackFlow
  else if action = "abort" then .abortRun
  else .abortRun

/-! ### Remediation-action validation (`_propose_actions`, lines 1805-1852)

    for i, a in enumerate(actions[:5]):
        if not isinstance(a, dict): continue
        action_type = a.get("action", "")
        if action_type not in ALLOWED_ACTIONS: continue
        confidence = a.get("confidence", 0)
        if not isinstance(confidence, (int, float)): confidence = 0
        confidence = max(0, min(100, int(confidence)))
        can_auto = (confidence >= AUTO_EXECUTE_CONFIDENCE
                    and action_type in AUTO_EXECUTE_ACTIONS)
        valid.append({..., "status": "auto_executing" if can_auto else "proposed"})

then every entry whose status is `"auto_executing"` is executed immediately
(lines 1833-1850); the rest stay `"proposed"`.
-/

/-- `ALLOWED_ACTIONS` (lines 350-353). -/
def ALLOWED_ACTIONS : List String :=
  ["hard_sync", "restart_pods", "retry_merge", "retry_build",
   "rollback_image", "clear_cache"]

/-- `AUTO_EXECUTE_CONFIDENCE` (line 356). -/
def AUTO_EXECUTE_CONFIDENCE : Int := 80

/-- `AUTO_EXECUTE_ACTIONS` (lines 359-361). -/
def AUTO_EXECUTE_ACTIONS : List String :=
  ["hard_sync", "retry_merge", "retry_build", "clear_cache", "rollback_image"]

/-- An LLM-proposed action after JSON parsing (numeric confidence already
truncated to an integer by `int(confidence)`). -/
structure RawAction where
  action : String
  target : String
  confidence : Int
  reason : String
  deriving DecidableEq, Repr

/-- A validated action entry as built by `_propose_actions`. -/
structure EnrichedAction where
  id : String
  action : String
  target : String
  confidence : Int
  reason : String
  status : String
  deriving DecidableEq, Repr

/-- `max(0, min(100, int(confidence)))`, line 1816. -/
def clampConfidence (c : Int) : Int := max 0 (min 100 c)

/-- `can_auto`, lines 1819-1822 (applied to the already-clamped confidence). -/
def canAutoExecute (actionType : String) (conf : Int) : Bool :=
  conf ≥ AUTO_EXECUTE_CONFIDENCE && AUTO_EXECUTE_ACTIONS.contains actionType

/-- The validation/enrichment loop of lines 1806-1831 (entries that are not
dicts are assumed already dropped by parsing into `RawAction`). -/
def validateActions (raw : List RawAction) : List EnrichedAction :=
  (raw.take 5).enum.filterMap (fun ia =>
    if ALLOWED_ACTIONS.contains ia.2.action then
      let conf := clampConfidence ia.2.confidence
      some { id := "act-" ++ toString ia.1,
             action := ia.2.action,
             target := ia.2.target.take 80,
             confidence := conf,
             reason := ia.2.reason.take 100,
             status := if canAutoExecute ia.2.action conf
                       then "auto_executing" else "proposed" }
    else none)

/-! ### Merge-step sha population (`_run_merge_step`, lines 1995-2063)

As each merge future completes (lines 2002-2004):

    if result.sha:
        self._shas[result.service] = result.sha

After all merges, the batch branch-HEAD fetch (lines 2023-2046) stores
`target_sha = branch_shas.get(svc, {}).get("target_sha", "")` into each
service's merge-status entry and then:

    for svc in self._selected_services:
        if svc not in self._shas:
            ms = next((m for m in self.merge_statuses if m["name"] == svc), None)
            if ms and ms.get("target_sha"):
                self._shas[svc] = ms["target_sha"]

`merge_statuses` holds one entry per selected service, in order, so the
selected-service list is the list of result names.
-/

/-- Per-service outcome of the parallel merge phase:
`status ∈ success | no-op | failed`, `sha` is the new merge-commit sha
(empty when no new commit was created). -/
structure MergeResult where
  service : String
  status : String
  sha : String
  deriving DecidableEq, Repr

/-- One step of the merge-completion loop (lines 2002-2004): record the
merge sha when one was produced. -/
def shasInsertStep (acc : List (String × String)) (r : MergeResult) :
    List (String × String) :=
  if r.sha ≠ "" then ainsert acc r.service r.sha else acc

/-- `_shas` after the merge-completion loop (lines 2002-2004). -/
def shasFromResults (results : List MergeResult) : List (String × String) :=
  results.foldl shasInsertStep []

/-- The fetched target-branch HEAD sha for a service:
`branch_shas.get(svc, {}).get("target_sha", "")` (line 2033). -/
def targetSha (branchShas : List (String × String)) (svc : String) : String :=
  (alookup branchShas svc).getD ""

/-- One step of the back-fill loop of lines 2042-2046: a selected service not
yet in `_shas` gets its fetched target sha when that sha is non-empty. -/
def shasTargetStep (branchShas : List (String × String))
    (acc : List (String × String)) (svc : String) : List (String × String) :=
  if (alookup acc svc).isSome then acc
  else if targetSha branchShas svc ≠ "" then
    ainsert acc svc (targetSha branchShas svc)
  else acc

/-- The back-fill loop of lines 2042-2046. -/
def populateShasFromTargets (selected : List String)
    (branchShas : List (String × String))
    (shas : List (String × String)) : List (String × String) :=
  selected.foldl (shasTargetStep branchShas) shas

/-- `_shas` at the end of the Merge step, given the per-service merge results
and a successful batch branch-HEAD fetch. -/
def mergeStepShas (results : List MergeResult)
    (branchShas : List (String × String)) : List (String × String) :=
  populateShasFromTargets (results.map (·.service)) branchShas
    (shasFromResults results)

/-! ### Pipeline state relevant to `expected_tags` (claims about
`start_pipeline` lines 910-949 and `_run_deploy_step` lines 3099-3117)

`start_pipeline` resets, among others, `health_map` (line 933),
`merge_statuses` (936), `build_statuses` (937) and `gitops_statuses` (938).
`expected_tags` does **not** appear anywhere in the reset block of lines
910-949; its only executor write is the recomputation at the start of the
Deploy step:

    pushed_svcs = {g["name"] for g in self.gitops_statuses
                   if g.get("phase") == "pushed"}
    et = {}
    for bs in self.build_statuses:
        name = bs.get("name", "")
        if name and name in pushed_svcs and bs.get("tag"):
            et[name] = bs["tag"]
    self.expected_tags = et
-/

/-- One entry of `gitops_statuses`. -/
structure GitopsStatus where
  name : String
  tag : String
  status : String
  phase : String
  deriving DecidableEq, Repr

/-- One entry of `build_statuses` (fields used by the Deploy step). -/
structure BuildStatus where
  name : String
  tag : String
  status : String
  phase : String
  deriving DecidableEq, Repr

/-- The executor-session fields involved in the `expected_tags` invariant. -/
structure PipeState where
  selected_services : List String
  expected_tags : List (String × String)
  gitops_statuses : List GitopsStatus
  build_statuses : List BuildStatus
  merge_statuses : List MergeResult
  health_map : List (String × String)
  deriving Repr

/-- The new-run field resets of `start_pipeline` lines 910-949, restricted to
the modelled fields: `health_map`, `merge_statuses`, `build_statuses` and
`gitops_statuses` are cleared (lines 933, 936, 937, 938), the selected
services are stored (line 889).  `expected_tags` is not in the reset list and
keeps its previous-run value. -/
def startPipelineInit (services : List String) (s : PipeState) : PipeState :=
  { s with
    selected_services := services,
    health_map := [],
    merge_statuses := [],
    build_statuses := [],
    gitops_statuses := [] }

/-- The `expected_tags` recomputation of `_run_deploy_step` lines 3105-3117. -/
def deployExpectedTags (gitops : List GitopsStatus)
    (builds : List BuildStatus) : List (String × String) :=
  let pushedSvcs := (gitops.filter (fun g => g.phase == "pushed")).map (·.name)
  builds.foldl (fun acc bs =>
    if bs.name ≠ "" ∧ pushedSvcs.contains bs.name ∧ bs.tag ≠ "" then
      ainsert acc bs.name bs.tag
    else acc) []

/-- Deploy-step entry (lines 3099-3117): every selected service is shown as
`Progressing` and `expected_tags` is recomputed. -/
def runDeployStepInit (s : PipeState) : PipeState :=
  { s with
    health_map := s.selected_services.map (fun svc => (svc, "Progressing")),
    expected_tags := deployExpectedTags s.gitops_statuses s.build_statuses }

/-- Spec invariant 3: `expected_tags[svc]` is present iff some entry of
`gitops_statuses` named `svc` has phase `"pushed"`. -/
def expectedTagsInv (s : PipeState) : Prop :=
  ∀ svc, (alookup s.expected_tags svc).isSome ↔
    ∃ g ∈ s.gitops_statuses, g.name = svc ∧ g.phase = "pushed"

/-! ### Deploy Watcher effective health (`on_deploy_update`, lines 3294-3346;
the same override also runs in the initial fetch of lines 3169-3198 and the
re-check of lines 3581-3598)

    for app in app_list:
        short = app.name         # namespace prefix stripped, lines 3304-3306
        if short not in hm: continue
        argo_health = app.health.value
        expected = et.get(short, "")
        current_tag = app.tag or ""
        if expected and current_tag and expected != current_tag:
            effective = "Progressing"
        else:
            effective = argo_health
        if hm[short] != effective:
            hm[short] = effective

The namespace-prefix strip of lines 3304-3306 is modelled by taking `name`
to already be the short service name.  Writing `hm[short] = effective` only
when the value differs leaves the same map as writing it unconditionally,
which is how `applyDeployUpdate` models it.
-/

/-- One app snapshot from the ArgoCD event feed: short name,
controller-reported health (`app.health.value`) and current tag
(`app.tag or ""`, so `""` when the controller reports none). -/
structure AppObs where
  name : String
  health : String
  tag : String
  deriving DecidableEq, Repr

/-- Effective health of one observed app (lines 3309-3316). -/
def effectiveHealth (et : List (String × String)) (app : AppObs) : String :=
  let expected := (alookup et app.name).getD ""
  if expected ≠ "" ∧ app.tag ≠ "" ∧ expected ≠ app.tag then "Progressing"
  else app.health

/-- Processing of a single app inside the `on_deploy_update` loop: apps whose
name is not a key of the health map are skipped (line 3307-3308), the rest
are written with their effective health (lines 3317-3318; writing only on
change leaves the same map as writing unconditionally). -/
def deployUpdateOne (et : List (String × String))
    (acc : List (String × String)) (app : AppObs) : List (String × String) :=
  if (alookup acc app.name).isSome then
    aupdate acc app.name (effectiveHealth et app)
  else acc

/-- The health-map update of one `on_deploy_update` callback over the pushed
app list. -/
def applyDeployUpdate (et : List (String × String))
    (hm : List (String × String)) (apps : List AppObs) : List (String × String) :=
  apps.foldl (deployUpdateOne et) hm

/-! ### Association-list lemmas -/

theorem alookup_ainsert_self (m : List (String × String)) (k v : String) :
    alookup (ainsert m k v) k = some v := by
  simp [ainsert, alookup]

theorem alookup_ainsert_ne (m : List (String × String)) (k v k' : String)
    (h : k ≠ k') : alookup (ainsert m k v) k' = alookup m k' := by
  simp [ainsert, alookup, h]

theorem alookup_aupdate_self (m : List (String × String)) (k v : String)
    (h : (alookup m k).isSome) : alookup (aupdate m k v) k = some v := by
  induction m with
  | nil => simp [alookup] at h
  | cons p rest ih =>
      obtain ⟨k', v'⟩ := p
      by_cases hk : k' = k
      · subst hk; simp [aupdate, alookup]
      · simp only [alookup, if_neg hk] at h
        simp only [aupdate, if_neg hk, alookup, if_neg hk]
        exact ih h

theorem alookup_aupdate_ne (m : List (String × String)) (k v k' : String)
    (h : k' ≠ k) : alookup (aupdate m k v) k' = alookup m k' := by
  induction m with
  | nil => simp [aupdate]
  | cons p rest ih =>
      obtain ⟨k'', v''⟩ := p
      by_cases hk : k'' = k
      · subst hk
        simp only [aupdate, if_pos rfl, alookup]
        rw [if_neg (fun hkk => h hkk.symm), if_neg (fun hkk => h hkk.symm)]
      · simp only [aupdate, if_neg hk, alookup]
        by_cases hk2 : k'' = k'
        · rw [if_pos hk2, if_pos hk2]
        · rw [if_neg hk2, if_neg hk2]
          exact ih

theorem isSome_alookup_aupdate (m : List (String × String)) (k v k' : String) :
    (alookup (aupdate m k v) k').isSome = (alookup m k').isSome := by
  induction m with
  | nil => simp [aupdate]
  | cons p rest ih =>
      obtain ⟨k'', v''⟩ := p
      by_cases hk : k'' = k
      · subst hk
        simp only [aupdate, if_pos rfl, alookup]
        by_cases hk2 : k'' = k'
        · rw [if_pos hk2, if_pos hk2]; rfl
        · rw [if_neg hk2, if_neg hk2]
      · simp only [aupdate, if_neg hk, alookup]
        by_cases hk2 : k'' = k'
        · rw [if_pos hk2, if_pos hk2]
        · rw [if_neg hk2, if_neg hk2]
          exact ih

/-! ### Claim C3 — final coarse status -/

/-- Claim C3: at finalization the coarse run status is `"success"` when every
step status is `"success"`, else `"failed"` when the run was aborted, else
`"degraded"` when some step status is `"failed"`, else `"success"`; in
particular a non-aborted run whose steps are all `"success"` or `"skipped"`
finalizes as `"success"`. -/
theorem C3_final_status_characterization (vals : List String) (ab : Bool) :
    (finalStatus vals ab =
      if ∀ s ∈ vals, s = "success" then "success"
      else if ab = true then "failed"
      else if ∃ s ∈ vals, s = "failed" then "degraded"
      else "success")
    ∧ ((∀ s ∈ vals, s = "success" ∨ s = "skipped") → ab = false →
        finalStatus vals ab = "success") := by
  have boolFalse : ∀ (b : Bool), ¬ b = true → b = false := by
    intro b h
    cases b with
    | false => rfl
    | true => exact absurd rfl h
  have hallb : (vals.all (fun s => s == "success")) = true ↔ ∀ s ∈ vals, s = "success" := by
    simp [List.all_eq_true]
  have hanyb : (vals.any (fun s => s == "failed")) = true ↔ "failed" ∈ vals := by
    simp [List.any_eq_true]
  constructor
  · by_cases h1 : ∀ s ∈ vals, s = "success"
    · rw [if_pos h1]
      simp [finalStatus, hallb.mpr h1]
    · have hb1 : (vals.all (fun s => s == "success")) = false :=
        boolFalse _ (fun h => h1 (hallb.mp h))
      rw [if_neg h1]
      cases ab with
      | true => simp [finalStatus, hb1]
      | false =>
          by_cases h2 : "failed" ∈ vals
          · have hb2 : (vals.any (fun s => s == "failed")) = true := hanyb.mpr h2
            have h2x : ∃ s ∈ vals, s = "failed" := ⟨"failed", h2, rfl⟩
            rw [if_neg (by decide), if_pos h2x]
            simp [finalStatus, hb1, hb2]
          · have hb2 : (vals.any (fun s => s == "failed")) = false :=
              boolFalse _ (fun h => h2 (hanyb.mp h))
            have h2x : ¬ ∃ s ∈ vals, s = "failed" := by
              rintro ⟨s, hs, rfl⟩
              exact h2 hs
            rw [if_neg (by decide), if_neg h2x]
            simp [finalStatus, hb1, hb2]
  · intro hss hab
    subst hab
    by_cases h1 : ∀ s ∈ vals, s = "success"
    · simp [finalStatus, hallb.mpr h1]
    · have hb1 : (vals.all (fun s => s == "success")) = false :=
        boolFalse _ (fun h => h1 (hallb.mp h))
      have h2 : "failed" ∉ vals := by
        intro hs
        rcases hss _ hs with h | h <;> simp at h
      have hb2 : (vals.any (fun s => s == "failed")) = false :=
        boolFalse _ (fun h => h2 (hanyb.mp h))
      simp [finalStatus, hb1, hb2]

/-- Witness for C3 at a concrete input: a run with steps
`success, success, skipped, success, skipped` and no abort finalizes as
`"success"`. -/
theorem C3_witness :
    finalStatus ["success", "success", "skipped", "success", "skipped"] false = "success" :=
  (C3_final_status_characterization
    ["success", "success", "skipped", "success", "skipped"] false).2
    (by decide) rfl

/-! ### Claim C9 — observer poller sleep -/

/-- Claim C9 counterexample: at `idle_count = 2` the code's base sleep is
1.0 second (line 605's `1.0 if idle_count < 3` branch), while the claimed
formula `min(1.0 + idle_count*0.5, 3.0)` gives 2.0. -/
theorem C9_counterexample :
    sleepBase 2 = 1 ∧ sleepBaseSpec 2 = 2 ∧ sleepBase 2 ≠ sleepBaseSpec 2 := by
  refine ⟨?_, ?_, ?_⟩ <;> norm_num [sleepBase, sleepBaseSpec]

/-- Claim C9 (amended): the base sleep is 1.0 s while `idle_count < 3`, and
`min(1.0 + idle_count*0.5, 3.0)` (hence 2.5 s at `idle_count = 3` and 3.0 s
from `idle_count = 4` on) otherwise; the actual sleep adds a jitter
`j ∈ [0, 0.3]` on top of the base. -/
theorem C9_amended (idle : ℕ) (j : ℚ) (hj0 : 0 ≤ j) (hj3 : j ≤ 3 / 10) :
    (idle < 3 → sleepBase idle = 1)
    ∧ (3 ≤ idle → sleepBase idle = min (1 + (idle : ℚ) * (1 / 2)) 3)
    ∧ sleepBase 3 = 5 / 2
    ∧ (4 ≤ idle → sleepBase idle = 3)
    ∧ 1 ≤ sleepBase idle ∧ sleepBase idle ≤ 3
    ∧ sleepBase idle ≤ sleepWithJitter idle j
    ∧ sleepWithJitter idle j ≤ sleepBase idle + 3 / 10 := by
  have hbounds : 1 ≤ sleepBase idle ∧ sleepBase idle ≤ 3 := by
    unfold sleepBase
    by_cases h : idle < 3
    · rw [if_pos h]; norm_num
    · rw [if_neg h]
      constructor
      · refine le_min ?_ ?_
        · have : (0 : ℚ) ≤ (idle : ℚ) * (1 / 2) := by positivity
          linarith
        · norm_num
      · exact min_le_right _ _
  refine ⟨?_, ?_, ?_, ?_, hbounds.1, hbounds.2, ?_, ?_⟩
  · intro h; simp [sleepBase, h]
  · intro h; simp [sleepBase, Nat.not_lt.mpr h]
  · norm_num [sleepBase]
  · intro h
    have h3 : ¬ idle < 3 := by omega
    have hc : (4 : ℚ) ≤ (idle : ℚ) := by exact_mod_cast h
    have h32 : (3 : ℚ) ≤ 1 + (idle : ℚ) * (1 / 2) := by linarith
    unfold sleepBase
    rw [if_neg h3, min_eq_right h32]
  · unfold sleepWithJitter; linarith
  · unfold sleepWithJitter; linarith

/-- Witness for C9 (amended) at `idle_count = 5`, jitter 0.1: base sleep is
3.0 s and the jittered sleep lies between 3.0 and 3.3 s. -/
theorem C9_witness :
    sleepBase 5 = 3 ∧ sleepWithJitter 5 (1 / 10) ≤ sleepBase 5 + 3 / 10 := by
  have h := C9_amended 5 (1 / 10) (by norm_num) (by norm_num)
  exact ⟨h.2.2.2.1 (by norm_num), h.2.2.2.2.2.2.2⟩

/-! ### Claim C8 — gitops deploy-lock gate -/

/-- A lock whose age is exactly its ttl, at `now = 3600`. -/
def boundaryLock : DeployLock := ⟨"r1", "qa-user", 0, 3600⟩

/-- Claim C8 counterexample: at the boundary `now - locked_at_epoch = ttl_secs`
(here 3600 s) the lock is *not* expired under the claim's definition
(`now - locked_at_epoch > ttl_secs` is false), so the claim requires the
GitOps step to fail; the code's gate (`lock_age < lock_ttl`, line 2442) does
not trip, and the step proceeds. -/
theorem C8_counterexample :
    gitopsLockGate 3600 (some boundaryLock) = none
    ∧ lockExpiredSpec 3600 boundaryLock = false := by
  constructor <;> rfl

/-- Claim C8 (amended): when the GitOps step begins with another pipeline's
lock present, it fails immediately with step status `"failed"`, touching no
values file and performing no commit or push, **iff**
`now - locked_at_epoch < ttl_secs`; equivalently the code already treats a
lock as expired once its age reaches `ttl_secs` (with `≥`, not the spec's
strict `>`). -/
theorem C8_amended (now : Int) (l : DeployLock) :
    (gitopsLockGate now (some l) = some ⟨"failed", 0, false, false⟩ ↔
      now - l.locked_at_epoch < l.ttl_secs)
    ∧ (gitopsLockGate now (some l) = none ↔ l.ttl_secs ≤ now - l.locked_at_epoch)
    ∧ gitopsLockGate now none = none := by
  by_cases h : now - l.locked_at_epoch < l.ttl_secs
  · have hb : lockBlocksGitops now l = true := by
      simp [lockBlocksGitops, h]
    refine ⟨?_, ?_, rfl⟩
    · simp [gitopsLockGate, hb, h]
    · simp [gitopsLockGate, hb, not_le.mpr h]
  · have hb : lockBlocksGitops now l = false := by
      simp [lockBlocksGitops, h]
    refine ⟨?_, ?_, rfl⟩
    · simp [gitopsLockGate, hb, h]
    · simp [gitopsLockGate, hb, not_lt.mp h]

/-! ### Claim C7 — abort-flag stickiness -/

/-- Claim C7 counterexample: the flag, once set, is also reset to `false` by
the stale-signal clear at pipeline start (line 952), which is neither a read
nor the finalization clear — so "cleared only at run finalization" fails. -/
theorem C7_counterexample :
    runAbortFlag true [AbortEvent.startClear] = false
    ∧ AbortEvent.startClear ≠ AbortEvent.finalizeClear
    ∧ isAbortRead AbortEvent.startClear = false := by
  refine ⟨rfl, ?_, rfl⟩
  intro h
  exact absurd h (by decide)

/-- Claim C7 (amended): the shared abort flag is sticky across all reads
(no read site modifies it, so it survives any sequence of reads), and the
only events that reset it to `false` are the stale-signal clear at pipeline
start (line 952) and the clear at run finalization (line 1280). -/
theorem C7_amended (b : Bool) (e : AbortEvent) (evs : List AbortEvent) :
    (isAbortRead e = true → abortFlagStep b e = b)
    ∧ ((∀ x ∈ evs, isAbortRead x = true) → runAbortFlag b evs = b)
    ∧ (abortFlagStep b e = false →
        b = false ∨ e = AbortEvent.startClear ∨ e = AbortEvent.finalizeClear)
    ∧ abortFlagStep b AbortEvent.setAbort = true := by
  refine ⟨?_, ?_, ?_, rfl⟩
  · cases e <;> simp [isAbortRead, abortFlagStep]
  · induction evs generalizing b with
    | nil => intro _; rfl
    | cons x xs ih =>
        intro h
        have hx : abortFlagStep b x = b := by
          have := h x (List.mem_cons_self x xs)
          cases x <;> simp_all [isAbortRead, abortFlagStep]
        calc runAbortFlag b (x :: xs) = runAbortFlag (abortFlagStep b x) xs := rfl
          _ = runAbortFlag b xs := by rw [hx]
          _ = b := ih b (fun y hy => h y (List.mem_cons_of_mem x hy))
  · cases e <;> cases b <;> simp [abortFlagStep]

/-- Witness for C7 (amended): a set flag survives the three read sites in
sequence. -/
theorem C7_witness :
    runAbortFlag true
      [AbortEvent.readPreStep, AbortEvent.readBetweenSteps, AbortEvent.readPauseWait]
      = true :=
  (C7_amended true AbortEvent.setAbort
    [AbortEvent.readPreStep, AbortEvent.readBetweenSteps, AbortEvent.readPauseWait]).2.1
    (by decide)

/-! ### Claim C10 — rollback decision on a non-deploy step -/

/-- Claim C10: the pause-wait loop accepts `"rollback"` from any step, but
for a step other than `"deploy"` the executor's dispatch falls through to the
final `else` (lines 1259-1262) and treats the decision as an abort: no
rollback flow runs, and the run terminates; a finalization with
`aborted = true` and a failed step yields coarse status `"failed"`. -/
theorem C10_rollback_elsewhere_aborts (step_id : String) (h : step_id ≠ "deploy") :
    waitAccepts "rollback" = true
    ∧ dispatchPauseAction "rollback" step_id = PauseOutcome.abortRun
    ∧ dispatchPauseAction "rollback" step_id ≠ PauseOutcome.rollbackFlow
    ∧ (∀ vals : List String, "failed" ∈ vals → finalStatus vals true = "failed") := by
  have hd : dispatchPauseAction "rollback" step_id = PauseOutcome.abortRun := by
    unfold dispatchPauseAction
    rw [if_neg (by decide), if_neg (by decide),
        if_neg (fun hc => h hc.2), if_neg (by decide)]
  refine ⟨rfl, hd, ?_, ?_⟩
  · rw [hd]
    intro hc
    exact absurd hc (by decide)
  · intro vals hmem
    have hb1 : (vals.all (fun s => s == "success")) = false := by
      cases hba : (vals.all (fun s => s == "success")) with
      | false => rfl
      | true =>
          rw [List.all_eq_true] at hba
          have := hba _ hmem
          simp at this
    simp [finalStatus, hb1]

/-- Witness for C10: a `"rollback"` decision while paused on the Merge step
is dispatched as an abort. -/
theorem C10_witness :
    dispatchPauseAction "rollback" "merge" = PauseOutcome.abortRun :=
  (C10_rollback_elsewhere_aborts "merge" (by decide)).2.1

/-! ### Claim C5 — auto-execution policy -/

/-- Claim C5: a validated remediation action is selected for auto-execution
(status `"auto_executing"`, immediately executed in lines 1833-1850) iff its
clamped integer confidence is at least 80 and its type is one of
`hard_sync, retry_merge, retry_build, clear_cache, rollback_image`; every
other validated action stays `"proposed"`.  In particular a
`rollback_image` proposal with confidence 80 is auto-executed and the same
proposal with confidence 79 stays `"proposed"`. -/
theorem C5_auto_execute_iff (raw : List RawAction) (e : EnrichedAction)
    (h : e ∈ validateActions raw) :
    (e.status = "auto_executing" ↔
      80 ≤ e.confidence ∧ e.action ∈ AUTO_EXECUTE_ACTIONS)
    ∧ (e.status = "auto_executing" ∨ e.status = "proposed")
    ∧ (validateActions [⟨"rollback_image", "svc", 80, "needs rollback"⟩]).map
        (fun a => a.status) = ["auto_executing"]
    ∧ (validateActions [⟨"rollback_image", "svc", 79, "needs rollback"⟩]).map
        (fun a => a.status) = ["proposed"] := by
  obtain ⟨ia, hia, heq⟩ := List.mem_filterMap.mp h
  by_cases hall : ALLOWED_ACTIONS.contains ia.2.action = true
  · rw [if_pos hall] at heq
    obtain rfl := Option.some.inj heq
    dsimp only
    refine ⟨?_, ?_, rfl, rfl⟩
    · constructor
      · intro hs
        by_cases hca : canAutoExecute ia.2.action (clampConfidence ia.2.confidence) = true
        · unfold canAutoExecute AUTO_EXECUTE_CONFIDENCE at hca
          rw [Bool.and_eq_true] at hca
          obtain ⟨h80, hmemb⟩ := hca
          refine ⟨of_decide_eq_true h80, ?_⟩
          simpa using hmemb
        · rw [if_neg hca] at hs
          exact absurd hs (by decide)
      · rintro ⟨h80, hmemb⟩
        have hca : canAutoExecute ia.2.action (clampConfidence ia.2.confidence) = true := by
          unfold canAutoExecute AUTO_EXECUTE_CONFIDENCE
          rw [Bool.and_eq_true]
          exact ⟨decide_eq_true h80, by simpa using hmemb⟩
        rw [if_pos hca]
    · by_cases hca : canAutoExecute ia.2.action (clampConfidence ia.2.confidence) = true
      · left; rw [if_pos hca]
      · right; rw [if_neg hca]
  · rw [if_neg hall] at heq
    exact absurd heq (by simp)

/-- Witness for C5: validating the single proposal
`rollback_image / confidence 80` yields exactly one entry with status
`"auto_executing"`. -/
theorem C5_witness :
    (validateActions [⟨"rollback_image", "svc", 80, "needs rollback"⟩]).map
      (fun a => a.status) = ["auto_executing"] :=
  (C5_auto_execute_iff [⟨"rollback_image", "svc", 80, "needs rollback"⟩]
    ⟨"act-0", "rollback_image", "svc", 80, "needs rollback", "auto_executing"⟩
    (by
      have hval : validateActions [⟨"rollback_image", "svc", 80, "needs rollback"⟩]
          = [⟨"act-0", "rollback_image", "svc", 80, "needs rollback", "auto_executing"⟩] := rfl
      rw [hval]
      exact List.mem_singleton.mpr rfl)).2.2.1

/-! ### Claim C6 — abort marks only running steps failed -/

/-- The step map after the user aborts while paused on a failed Merge step:
the failing step is `"failed"`, everything after it is still `"pending"`. -/
def abortScenarioSteps : List (String × String) :=
  [("merge", "failed"), ("build", "pending"), ("gitops", "pending"),
   ("deploy", "pending"), ("jenkins", "pending")]

/-- Claim C6 counterexample: aborting while paused on a failed Merge step
leaves the remaining steps `"pending"` — the finalization marking of lines
1303-1307 touches only `"running"` steps, so a non-terminated `"pending"`
step is *not* marked `"failed"` as the claim states. -/
theorem C6_counterexample :
    alookup (markRunningFailed abortScenarioSteps) "build" = some "pending"
    ∧ "pending" ≠ "failed"
    ∧ "pending" ∉ ["success", "failed", "skipped", "interrupted"] := by
  refine ⟨rfl, by decide, by decide⟩

/-- Lookup after the abort marking: the entry for key `k` keeps its value
unless that value was `"running"`, in which case it becomes `"failed"`. -/
theorem alookup_markRunningFailed (steps : List (String × String)) (k v : String)
    (hnd : (steps.map Prod.fst).Nodup) (hmem : (k, v) ∈ steps) :
    alookup (markRunningFailed steps) k
      = some (if v = "running" then "failed" else v) := by
  induction steps with
  | nil => cases hmem
  | cons p rest ih =>
      obtain ⟨k', v'⟩ := p
      rw [List.map_cons, List.nodup_cons] at hnd
      rcases List.mem_cons.mp hmem with hpq | hrest
      · cases hpq
        by_cases hv : v = "running"
        · subst hv
          show alookup ((if ("running" : String) = "running" then (k, "failed")
            else (k, "running")) :: markRunningFailed rest) k = _
          rw [if_pos rfl, if_pos rfl]
          simp [alookup]
        · show alookup ((if v = "running" then (k, "failed")
            else (k, v)) :: markRunningFailed rest) k = _
          rw [if_neg hv, if_neg hv]
          simp [alookup]
      · have hk : k' ≠ k := by
          intro hkk
          subst hkk
          exact hnd.1 (List.mem_map.mpr ⟨(k', v), hrest, rfl⟩)
        have ihr := ih hnd.2 hrest
        by_cases hv' : v' = "running"
        · show alookup ((if v' = "running" then (k', "failed")
            else (k', v')) :: markRunningFailed rest) k = _
          rw [if_pos hv']
          simp only [alookup]
          rw [if_neg hk]
          exact ihr
        · show alookup ((if v' = "running" then (k', "failed")
            else (k', v')) :: markRunningFailed rest) k = _
          rw [if_neg hv']
          simp only [alookup]
          rw [if_neg hk]
          exact ihr

/-- Claim C6 (amended): when the pause decision is abort, the finalization
marks exactly the steps whose status is `"running"` as `"failed"`; every
other step — including the not-yet-run `"pending"` steps — keeps its status,
and the run still finalizes, with coarse status `"failed"` whenever some step
had failed. -/
theorem C6_abort_marks_running_only (steps : List (String × String)) (k v : String)
    (hnd : (steps.map Prod.fst).Nodup) (hmem : (k, v) ∈ steps) :
    alookup (markRunningFailed steps) k
      = some (if v = "running" then "failed" else v)
    ∧ ((∃ p ∈ steps, (p : String × String).2 = "failed") →
        finalStatus (steps.map Prod.snd) true = "failed") := by
  refine ⟨alookup_markRunningFailed steps k v hnd hmem, ?_⟩
  rintro ⟨q, hq, hqf⟩
  have hb1 : ((steps.map Prod.snd).all (fun s => s == "success")) = false := by
    cases hba : ((steps.map Prod.snd).all (fun s => s == "success")) with
    | false => rfl
    | true =>
        rw [List.all_eq_true] at hba
        have := hba q.2 (List.mem_map_of_mem Prod.snd hq)
        rw [hqf] at this
        simp at this
  simp [finalStatus, hb1]

/-- Witness for C6 (amended) on the concrete abort scenario: the pending
GitOps step keeps status `"pending"` and the run finalizes as `"failed"`. -/
theorem C6_witness :
    alookup (markRunningFailed abortScenarioSteps) "gitops" = some "pending"
    ∧ finalStatus (abortScenarioSteps.map Prod.snd) true = "failed" := by
  have h := C6_abort_marks_running_only abortScenarioSteps "gitops" "pending"
    (by decide) (by decide)
  exact ⟨by simpa using h.1, h.2 ⟨("merge", "failed"), by decide, rfl⟩⟩

/-! ### Claim C2 — effective-health override -/

theorem isSome_deployUpdateOne (et : List (String × String))
    (hm : List (String × String)) (a : AppObs) (name : String) :
    (alookup (deployUpdateOne et hm a) name).isSome = (alookup hm name).isSome := by
  unfold deployUpdateOne
  by_cases hs : (alookup hm a.name).isSome
  · rw [if_pos hs]
    exact isSome_alookup_aupdate hm a.name _ name
  · rw [if_neg hs]

theorem alookup_deployFold_not_mem :
    ∀ (et : List (String × String)) (apps : List AppObs)
      (hm : List (String × String)) (name : String),
      name ∉ apps.map (fun a => a.name) →
      alookup (apps.foldl (deployUpdateOne et) hm) name = alookup hm name := by
  intro et apps
  induction apps with
  | nil => intro hm name _; rfl
  | cons a rest ih =>
      intro hm name h
      have h1 : name ≠ a.name := by
        intro he
        exact h (by rw [List.map_cons]; exact he ▸ List.mem_cons_self _ _)
      have h2 : name ∉ rest.map (fun a => a.name) := by
        intro hin
        exact h (by rw [List.map_cons]; exact List.mem_cons_of_mem _ hin)
      rw [List.foldl_cons, ih (deployUpdateOne et hm a) name h2]
      unfold deployUpdateOne
      by_cases hs : (alookup hm a.name).isSome
      · rw [if_pos hs]
        exact alookup_aupdate_ne hm a.name _ name h1
      · rw [if_neg hs]

theorem alookup_applyDeployUpdate :
    ∀ (et : List (String × String)) (apps : List AppObs) (app : AppObs),
      (apps.map (fun a => a.name)).Nodup → app ∈ apps →
      ∀ hm : List (String × String), (alookup hm app.name).isSome →
        alookup (applyDeployUpdate et hm apps) app.name
          = some (effectiveHealth et app) := by
  intro et apps
  induction apps with
  | nil => intro app _ h; cases h
  | cons a rest ih =>
      intro app hnd hmem hm hin
      rw [List.map_cons, List.nodup_cons] at hnd
      unfold applyDeployUpdate
      rw [List.foldl_cons]
      rcases List.mem_cons.mp hmem with rfl | hrest
      · rw [alookup_deployFold_not_mem et rest _ app.name hnd.1]
        unfold deployUpdateOne
        rw [if_pos hin]
        exact alookup_aupdate_self hm app.name _ hin
      · have hin' : (alookup (deployUpdateOne et hm a) app.name).isSome := by
          rw [isSome_deployUpdateOne]
          exact hin
        have hres := ih app hnd.2 hrest (deployUpdateOne et hm a) hin'
        unfold applyDeployUpdate at hres
        exact hres

/-- Claim C2: for every service observed by the Deploy Watcher (its name is a
key of the health map and it appears in the event's app list), the health
recorded by the callback is the effective health: `"Progressing"` whenever
the expected tag is set, the reported tag is non-empty and the two differ —
regardless of the controller-reported health — and exactly the
controller-reported health otherwise. -/
theorem C2_effective_health_override (et hm : List (String × String))
    (apps : List AppObs) (app : AppObs)
    (hnd : (apps.map (fun a => a.name)).Nodup) (hmem : app ∈ apps)
    (hin : (alookup hm app.name).isSome) :
    alookup (applyDeployUpdate et hm apps) app.name = some (effectiveHealth et app)
    ∧ (((alookup et app.name).getD "" ≠ "" ∧ app.tag ≠ ""
        ∧ (alookup et app.name).getD "" ≠ app.tag) →
        alookup (applyDeployUpdate et hm apps) app.name = some "Progressing")
    ∧ (¬ ((alookup et app.name).getD "" ≠ "" ∧ app.tag ≠ ""
        ∧ (alookup et app.name).getD "" ≠ app.tag) →
        alookup (applyDeployUpdate et hm apps) app.name = some app.health) := by
  have hmain := alookup_applyDeployUpdate et apps app hnd hmem hm hin
  refine ⟨hmain, ?_, ?_⟩
  · intro hc
    rw [hmain]
    simp only [effectiveHealth]
    rw [if_pos hc]
  · intro hc
    rw [hmain]
    simp only [effectiveHealth]
    rw [if_neg hc]

/-- Witness for C2: a service whose expected tag `"tag-new"` differs from the
reported tag `"tag-old"` is recorded as `"Progressing"` even though the
controller reports `"Healthy"`. -/
theorem C2_witness :
    alookup (applyDeployUpdate [("alive", "tag-new")] [("alive", "Healthy")]
      [⟨"alive", "Healthy", "tag-old"⟩]) "alive" = some "Progressing" :=
  (C2_effective_health_override [("alive", "tag-new")] [("alive", "Healthy")]
    [⟨"alive", "Healthy", "tag-old"⟩] ⟨"alive", "Healthy", "tag-old"⟩
    (by decide) (by decide) (by decide)).2.1 (by decide)

/-! ### Claim C4 — `_shas` populated after Merge -/

theorem alookup_shasFold_not_service :
    ∀ (results : List MergeResult) (acc : List (String × String)) (svc : String),
      (∀ y ∈ results, y.service ≠ svc) →
      alookup (results.foldl shasInsertStep acc) svc = alookup acc svc := by
  intro results
  induction results with
  | nil => intro acc svc _; rfl
  | cons x rest ih =>
      intro acc svc h
      rw [List.foldl_cons, ih (shasInsertStep acc x) svc
        (fun y hy => h y (List.mem_cons_of_mem x hy))]
      unfold shasInsertStep
      by_cases hx : x.sha ≠ ""
      · rw [if_pos hx]
        exact alookup_ainsert_ne acc x.service x.sha svc
          (h x (List.mem_cons_self x rest))
      · rw [if_neg hx]

theorem alookup_shasFold_of_sha :
    ∀ (results : List MergeResult) (r : MergeResult),
      r ∈ results → (results.map (fun x => x.service)).Nodup → r.sha ≠ "" →
      ∀ acc : List (String × String),
        alookup (results.foldl shasInsertStep acc) r.service = some r.sha := by
  intro results
  induction results with
  | nil => intro r h; cases h
  | cons x rest ih =>
      intro r hmem hnd hsha acc
      rw [List.map_cons, List.nodup_cons] at hnd
      rw [List.foldl_cons]
      rcases List.mem_cons.mp hmem with rfl | hrest
      · have hnotin : ∀ y ∈ rest, y.service ≠ r.service := by
          intro y hy hyq
          exact hnd.1 (hyq ▸ List.mem_map.mpr ⟨y, hy, rfl⟩)
        rw [alookup_shasFold_not_service rest _ r.service hnotin]
        unfold shasInsertStep
        rw [if_pos hsha]
        exact alookup_ainsert_self acc r.service r.sha
      · exact ih r hrest hnd.2 hsha (shasInsertStep acc x)

theorem alookup_shasFold_none :
    ∀ (results : List MergeResult) (acc : List (String × String)) (svc : String),
      (∀ y ∈ results, y.service = svc → y.sha = "") →
      alookup acc svc = none →
      alookup (results.foldl shasInsertStep acc) svc = none := by
  intro results
  induction results with
  | nil => intro acc svc _ hacc; exact hacc
  | cons x rest ih =>
      intro acc svc h hacc
      rw [List.foldl_cons]
      refine ih (shasInsertStep acc x) svc
        (fun y hy => h y (List.mem_cons_of_mem x hy)) ?_
      unfold shasInsertStep
      by_cases hx : x.sha ≠ ""
      · rw [if_pos hx]
        by_cases hxs : x.service = svc
        · exact absurd (h x (List.mem_cons_self x rest) hxs) hx
        · rw [alookup_ainsert_ne acc x.service x.sha svc hxs]
          exact hacc
      · rw [if_neg hx]
        exact hacc

theorem alookup_targetFold_preserve :
    ∀ (sel : List String) (branchShas shas : List (String × String)) (k : String),
      (alookup shas k).isSome →
      alookup (sel.foldl (shasTargetStep branchShas) shas) k = alookup shas k := by
  intro sel
  induction sel with
  | nil => intro bs shas k _; rfl
  | cons s rest ih =>
      intro bs shas k h
      have hstep : alookup (shasTargetStep bs shas s) k = alookup shas k := by
        unfold shasTargetStep
        by_cases hs : (alookup shas s).isSome
        · rw [if_pos hs]
        · rw [if_neg hs]
          by_cases ht : targetSha bs s ≠ ""
          · rw [if_pos ht]
            have hsk : s ≠ k := by
              intro he
              subst he
              exact hs h
            exact alookup_ainsert_ne shas s _ k hsk
          · rw [if_neg ht]
      rw [List.foldl_cons, ih bs (shasTargetStep bs shas s) k (by rw [hstep]; exact h)]
      exact hstep

theorem alookup_targetFold_insert :
    ∀ (sel : List String) (branchShas shas : List (String × String)) (svc : String),
      sel.Nodup → svc ∈ sel → alookup shas svc = none →
      targetSha branchShas svc ≠ "" →
      alookup (sel.foldl (shasTargetStep branchShas) shas) svc
        = some (targetSha branchShas svc) := by
  intro sel
  induction sel with
  | nil => intro bs shas svc _ h; cases h
  | cons s rest ih =>
      intro bs shas svc hnd hmem hnone ht
      rw [List.nodup_cons] at hnd
      rw [List.foldl_cons]
      rcases List.mem_cons.mp hmem with rfl | hrest
      · have hstep : alookup (shasTargetStep bs shas svc) svc
            = some (targetSha bs svc) := by
          unfold shasTargetStep
          rw [if_neg (by rw [hnone]; exact Bool.false_ne_true), if_pos ht]
          exact alookup_ainsert_self shas svc _
        rw [alookup_targetFold_preserve rest bs (shasTargetStep bs shas svc) svc
          (by rw [hstep]; rfl)]
        exact hstep
      · have hs : s ≠ svc := by
          intro he
          exact hnd.1 (he ▸ hrest)
        have hstep : alookup (shasTargetStep bs shas s) svc = none := by
          unfold shasTargetStep
          by_cases hsome : (alookup shas s).isSome
          · rw [if_pos hsome]
            exact hnone
          · rw [if_neg hsome]
            by_cases ht' : targetSha bs s ≠ ""
            · rw [if_pos ht']
              rw [alookup_ainsert_ne shas s _ svc hs]
              exact hnone
            · rw [if_neg ht']
              exact hnone
        exact ih bs (shasTargetStep bs shas s) svc hnd.2 hrest hstep ht

/-- Claim C4: after the Merge step completes (with the batch branch-HEAD
fetch returning the given `branchShas`), `_shas[svc]` is populated for every
selected service whose merge status is not `"failed"` — for a service with a
new merge commit it is the merge sha, for the others the fetched
target-branch HEAD sha (assuming that fetched sha is non-empty, i.e. the
target branch exists). -/
theorem C4_shas_populated_after_merge (results : List MergeResult)
    (branchShas : List (String × String)) (r : MergeResult)
    (hnd : (results.map (fun x => x.service)).Nodup) (hmem : r ∈ results)
    (hstatus : r.status ≠ "failed")
    (henv : r.sha ≠ "" ∨ targetSha branchShas r.service ≠ "") :
    (alookup (mergeStepShas results branchShas) r.service).isSome
    ∧ (r.sha ≠ "" →
        alookup (mergeStepShas results branchShas) r.service = some r.sha)
    ∧ (r.sha = "" → targetSha branchShas r.service ≠ "" →
        alookup (mergeStepShas results branchShas) r.service
          = some (targetSha branchShas r.service)) := by
  have hsel : (results.map (fun x => x.service)).Nodup := hnd
  have hmemsel : r.service ∈ results.map (fun x => x.service) :=
    List.mem_map.mpr ⟨r, hmem, rfl⟩
  have hsha : ∀ hs : r.sha ≠ "",
      alookup (mergeStepShas results branchShas) r.service = some r.sha := by
    intro hs
    unfold mergeStepShas populateShasFromTargets
    have hphaseA : alookup (shasFromResults results) r.service = some r.sha := by
      unfold shasFromResults
      exact alookup_shasFold_of_sha results r hmem hnd hs []
    rw [alookup_targetFold_preserve (results.map (fun x => x.service)) branchShas
      (shasFromResults results) r.service (by rw [hphaseA]; rfl)]
    exact hphaseA
  have htgt : ∀ (_ : r.sha = "") (ht : targetSha branchShas r.service ≠ ""),
      alookup (mergeStepShas results branchShas) r.service
        = some (targetSha branchShas r.service) := by
    intro hs ht
    unfold mergeStepShas populateShasFromTargets
    have hphaseA : alookup (shasFromResults results) r.service = none := by
      unfold shasFromResults
      refine alookup_shasFold_none results [] r.service ?_ rfl
      intro y hy hyq
      have : y = r := List.inj_on_of_nodup_map hnd hy hmem hyq
      rw [this, hs]
    exact alookup_targetFold_insert (results.map (fun x => x.service)) branchShas
      (shasFromResults results) r.service hsel hmemsel hphaseA ht
  refine ⟨?_, hsha, htgt⟩
  rcases henv with hs | ht
  · rw [hsha hs]
    rfl
  · by_cases hs : r.sha = ""
    · rw [htgt hs ht]
      rfl
    · rw [hsha hs]
      rfl

/-- Witness for C4: a no-op merge for `"b"` (no merge sha) still ends with
`_shas["b"]` populated from the fetched target-branch HEAD. -/
theorem C4_witness :
    alookup (mergeStepShas
      [⟨"a", "success", "aaaa"⟩, ⟨"b", "no-op", ""⟩]
      [("a", "head-a"), ("b", "head-b")]) "b" = some "head-b" :=
  (C4_shas_populated_after_merge
    [⟨"a", "success", "aaaa"⟩, ⟨"b", "no-op", ""⟩]
    [("a", "head-a"), ("b", "head-b")]
    ⟨"b", "no-op", ""⟩ (by decide) (by decide) (by decide)
    (Or.inr (by decide))).2.2 rfl (by decide)

/-! ### Claim C1 — `expected_tags` ⇔ gitops `pushed`, across the run -/

/-- Executor state at the end of a previous run in which service `"alive"`
was pushed by GitOps: `expected_tags` holds its tag and the matching
gitops entry has phase `"pushed"`, so the invariant holds here. -/
def prevRunState : PipeState :=
  { selected_services := ["alive"],
    expected_tags := [("alive", "pre-release-tw-0123456789")],
    gitops_statuses := [⟨"alive", "pre-release-tw-0123456789", "success", "pushed"⟩],
    build_statuses := [⟨"alive", "pre-release-tw-0123456789", "success", "exists"⟩],
    merge_statuses := [⟨"alive", "success", "0123456789abc"⟩],
    health_map := [("alive", "Healthy")] }

/-- Claim C1: the map `expected_tags` should contain a key iff some
gitops entry with that name has phase `"pushed"` in the current run, at every
reachable state.  The code violates this: the reset block of
`start_pipeline` (lines 910-949) clears `gitops_statuses` (line 938) but
never clears `expected_tags`, so between pipeline start and the Deploy
step's recomputation (line 3117) the map still carries the previous run's
entries while `gitops_statuses` is empty — the invariant fails on the
left-to-right direction.  The Deploy-step recomputation restores it. -/
theorem C1_stale_expected_tags_at_start :
    expectedTagsInv prevRunState
    ∧ (startPipelineInit ["alive"] prevRunState).expected_tags
        = [("alive", "pre-release-tw-0123456789")]
    ∧ (startPipelineInit ["alive"] prevRunState).gitops_statuses = []
    ∧ ¬ expectedTagsInv (startPipelineInit ["alive"] prevRunState)
    ∧ expectedTagsInv (runDeployStepInit (startPipelineInit ["alive"] prevRunState)) := by
  refine ⟨?_, rfl, rfl, ?_, ?_⟩
  · intro svc
    constructor
    · intro hsome
      by_cases h : svc = "alive"
      · subst h
        exact ⟨⟨"alive", "pre-release-tw-0123456789", "success", "pushed"⟩,
          List.mem_cons_self _ _, rfl, rfl⟩
      · have : alookup prevRunState.expected_tags svc = none := by
          show alookup [("alive", "pre-release-tw-0123456789")] svc = none
          unfold alookup
          rw [if_neg (fun he => h he.symm)]
          rfl
        rw [this] at hsome
        exact absurd hsome (by decide)
    · rintro ⟨g, hg, hname, hphase⟩
      have hgeq : g = ⟨"alive", "pre-release-tw-0123456789", "success", "pushed"⟩ :=
        List.mem_singleton.mp hg
      subst hgeq
      have : svc = "alive" := hname.symm
      subst this
      rfl
  · intro hinv
    have h1 : (alookup (startPipelineInit ["alive"] prevRunState).expected_tags
        "alive").isSome := by rfl
    obtain ⟨g, hg, -, -⟩ := (hinv "alive").mp h1
    exact absurd hg (List.not_mem_nil g)
  · intro svc
    constructor
    · intro hsome
      have : alookup (runDeployStepInit
          (startPipelineInit ["alive"] prevRunState)).expected_tags svc = none := by
        rfl
      rw [this] at hsome
      exact absurd hsome (by decide)
    · rintro ⟨g, hg, -, -⟩
      exact absurd hg (List.not_mem_nil g)
